import Mathlib

/-!
Verification of the checksum and diff engine of `core/common/checksums.py`.

The development shallowly embeds the Python source into Lean:

* `JVal` models the JSON-like Python values fed to the checksum machinery
  (scalars, strings, UUIDs, lists, and dicts represented as association
  lists in insertion order; dicts arising from Python always have distinct
  keys, which theorems assume where relevant).
* `Checksum._serialize` is embedded as a fuel-indexed function
  (`serializeF`), with the fuel chosen large enough (`jsize`); fuel only
  ensures termination and is proved irrelevant (`serializeF_irrel`).
* `generic_sort` (from `core/common/utils`, whose source is not part of
  this tree) and `Toggle.get` (from `core/toggles`) are modelled from the
  spec; each such definition is marked `Modelled from the spec:` in its
  doc comment.
* the MD5 digest of `hashlib` is external library code; it is modelled by
  a concrete deterministic stand-in function of the serialized string
  (`hashHex`), which is all the verified properties depend on.
-/

/-- JSON-like values handled by the checksum engine: Python `None`, `bool`,
`int`, `str`, `uuid.UUID`, `list` and `dict` (as an association list in
insertion order). -/
inductive JVal where
  | null
  | bool (b : Bool)
  | int (n : Int)
  | str (s : String)
  | uuid (u : String)
  | arr (xs : List JVal)
  | obj (kvs : List (String × JVal))

mutual

/-- Size measure on `JVal`, used as fuel for the serializer. -/
def jsize : JVal → Nat
  | .null => 1
  | .bool _ => 1
  | .int _ => 1
  | .str _ => 1
  | .uuid _ => 1
  | .arr xs => 1 + jsizeL xs
  | .obj kvs => 1 + jsizeKV kvs

def jsizeL : List JVal → Nat
  | [] => 0
  | x :: xs => jsize x + jsizeL xs

def jsizeKV : List (String × JVal) → Nat
  | [] => 0
  | p :: ps => jsize p.2 + jsizeKV ps

end

/-- Python truthiness for the values of `JVal` (`bool(v)`): `None`, `False`,
`0`, the empty string, the empty list and the empty dict are falsy; a
`uuid.UUID` object is always truthy. -/
def truthy : JVal → Bool
  | .null => false
  | .bool b => b
  | .int n => decide (n ≠ 0)
  | .str s => !s.isEmpty
  | .uuid _ => true
  | .arr xs => !xs.isEmpty
  | .obj kvs => !kvs.isEmpty

/-- Lexicographic comparison on character lists by code point, matching how
Python compares strings. -/
def charListLe : List Char → List Char → Bool
  | [], _ => true
  | _ :: _, [] => false
  | a :: as, b :: bs =>
    if a.toNat < b.toNat then true
    else if b.toNat < a.toNat then false
    else charListLe as bs

/-- String comparison by code points (Python `str` ordering). -/
def strLe (a b : String) : Bool := charListLe a.toList b.toList

mutual

/-- A deterministic structural encoding of a `JVal`, used only as the sort
key of the modelled `generic_sort` below (no claim depends on the exact
order, only on it being a fixed deterministic function). -/
def rawEncode : JVal → String
  | .null => "n"
  | .bool b => if b then ("bT") else ("bF")
  | .int n => "i" ++ toString n
  | .str s => "s" ++ s
  | .uuid u => "u" ++ u
  | .arr xs => "a<" ++ rawEncodeL xs ++ ">"
  | .obj kvs => "o<" ++ rawEncodeKV kvs ++ ">"

def rawEncodeL : List JVal → String
  | [] => ""
  | x :: xs => rawEncode x ++ "," ++ rawEncodeL xs

def rawEncodeKV : List (String × JVal) → String
  | [] => ""
  | p :: ps => p.1 ++ ":" ++ rawEncode p.2 ++ "," ++ rawEncodeKV ps

end

/-- The ordering relation used by the modelled `generic_sort`: compare by a
string key. -/
def keyRel {α : Type} (key : α → String) : α → α → Prop :=
  fun a b => strLe (key a) (key b) = true

instance {α : Type} (key : α → String) : DecidableRel (keyRel key) :=
  fun a b => instDecidableEqBool (strLe (key a) (key b)) true

/-- Modelled from the spec: `generic_sort` (`core/common/utils`) is not in
this source tree.  Per §4.1/§9 it is a deterministic stable sort of mixed
values under a generic total order; it is modelled as an insertion sort by
a string key — the identity on strings (Python's lexicographic string
order), `rawEncode` on arbitrary values. -/
def generic_sort {α : Type} (key : α → String) (l : List α) : List α :=
  List.insertionSort (keyRel key) l

/-- JSON string escaping for the characters relevant here (`json.dumps`). -/
def jsonEscapeChar (c : Char) : String :=
  if c = '"' then ("\\\"")
  else if c = '\\' then ("\\\\")
  else if c = '\n' then ("\\n")
  else if c = '\t' then ("\\t")
  else if c = '\r' then ("\\r")
  else String.singleton c

/-- Encoding `json.dumps` gives a string: quoted, with escapes. -/
def jsonQuote (s : String) : String :=
  "\"" ++ String.join (s.toList.map jsonEscapeChar) ++ "\""

/-- Encoding `json.dumps` of a bool. -/
def jsonBool : Bool → String
  | true => "true"
  | false => "false"

/-- Encoding `json.dumps` of a list of strings (`json.dumps(keys)` in `_serialize`);
the default separator of `json.dumps` is a comma followed by a space. -/
def jsonDumpsKeys (keys : List String) : String :=
  "[" ++ String.intercalate (", ") (keys.map jsonQuote) ++ "]"

/-- First-match lookup `obj[key]` on an association list; Python dicts have
unique keys, so first match is the binding.  Out-of-dict access cannot
happen in `_serialize` (keys are drawn from the dict); the default `.null`
is unreachable there. -/
def jlookupD : List (String × JVal) → String → JVal
  | [], _ => .null
  | p :: ps, k => if p.1 = k then p.2 else jlookupD ps k

namespace Checksum

/-- The body of `Checksum._serialize` after the singleton-list unwrap, with
`recur` standing for the recursive call `cls._serialize`.
Source: `core/common/checksums.py` lines 151-165. -/
def serializeStep (recur : JVal → String) : JVal → String
  | .arr xs => "[" ++ String.intercalate (",") ((generic_sort rawEncode xs).map recur) ++ "]"
  | .obj kvs =>
    let keys := generic_sort id (kvs.map Prod.fst)
    "\x7b" ++ jsonDumpsKeys keys
      ++ String.join (keys.map (fun k => recur (jlookupD kvs k) ++ ","))
      ++ "\x7d"
  | .null => "null"
  | .bool b => jsonBool b
  | .int n => toString n
  | .str s => jsonQuote s
  | .uuid u => jsonQuote u

/-- Fuel-indexed embedding of `Checksum._serialize`: if the argument is a
one-element list it is unwrapped once, then `serializeStep` is applied,
recursing through `serializeF` with one unit of fuel spent.  The fuel is
only a termination device (see `serializeF_irrel`). -/
def serializeF : Nat → JVal → String
  | 0, _ => ""
  | fuel + 1, .arr (x :: ([] : List JVal)) => serializeStep (serializeF fuel) x
  | fuel + 1, v => serializeStep (serializeF fuel) v

/-- Embeds `Checksum._serialize`, with fuel `jsize` of the input (always enough). -/
def _serialize (v : JVal) : String := serializeF (jsize v) v

/-- Embeds `Checksum.generate`: the MD5 hex digest of the UTF-8 encoded canonical
serialization.  The external `hashlib` digest is modelled by `hashHex`
below. -/
def generate (obj : JVal) : String := hashHex (_serialize obj)
where
  /-- Modelled from the spec: the fixed hash algorithm of §4.2 (`hashlib`,
  128-bit MD5, hex encoded) is external library code; it is modelled as a
  concrete deterministic stand-in function of the serialized string.  All
  verified properties depend only on the digest being a deterministic
  function of the serialization. -/
  hashHex (s : String) : String :=
    (Nat.toDigits 16 (s.toList.foldl (fun h c => (h * 131 + c.toNat + 1) % (2 ^ 64)) 5381)).asString

end Checksum

def retiredKey : String := "retired"

def isActiveKey : String := "is_active"

def extrasKey : String := "extras"

/-- Whether a key starts with a double underscore (`key.startswith('__')`). -/
def isDunder (s : String) : Bool :=
  match s.toList with
  | c1 :: c2 :: _ => (c1.toNat == 95) && (c2.toNat == 95)
  | _ => false

/-- Removing the double-underscore keys of an `extras` dict.  The source
copies the dict and pops each such key, which keeps the remaining entries
in their original order — the same as filtering them. -/
def stripDunder (kvs : List (String × JVal)) : List (String × JVal) :=
  kvs.filter (fun p => !(isDunder p.1))

namespace ChecksumModel

/-- The fate of one top-level entry under `ChecksumModel._cleanup`
(`core/common/checksums.py` lines 113-135): `None` values are dropped;
`retired` is dropped when falsy; `is_active` is dropped when truthy;
`extras` is dropped when falsy, and if it is a dict containing a
double-underscore key, those keys are removed from it; anything else is
kept unchanged. -/
def cleanupEntry (k : String) (v : JVal) : Option (String × JVal) :=
  match v with
  | .null => none
  | v =>
    if k = retiredKey && !(truthy v) then none
    else if k = isActiveKey && truthy v then none
    else if k = extrasKey then
      if !(truthy v) then none
      else match v with
        | .obj inner =>
          if inner.any (fun p => isDunder p.1) then some (k, .obj (stripDunder inner))
          else some (k, .obj inner)
        | v => some (k, v)
    else some (k, v)

/-- Action of `_cleanup` on the entry list of a dict.  The source rebuilds a dict by
iterating the entries in order; as Python dict keys are unique, this is the
entry-wise `filterMap`. -/
def cleanupL (kvs : List (String × JVal)) : List (String × JVal) :=
  kvs.filterMap (fun p => cleanupEntry p.1 p.2)

/-- Embeds `ChecksumModel._cleanup`: rebuilds dict inputs entry by entry, returns
any non-dict input unchanged. -/
def _cleanup (fields : JVal) : JVal :=
  match fields with
  | .obj kvs => .obj (cleanupL kvs)
  | v => v

/-- Embeds `ChecksumModel.generate_checksum`. -/
def generate_checksum (data : JVal) : String := Checksum.generate (_cleanup data)

/-- Embeds `ChecksumModel.generate_checksum_from_many`: one checksum per element
for list input (a single-element result is returned unwrapped), a checksum
of the digest list otherwise. -/
def generate_checksum_from_many (data : JVal) : String :=
  let checksums : List String :=
    match data with
    | .arr xs => xs.map (fun d => Checksum.generate (_cleanup d))
    | d => [Checksum.generate (_cleanup d)]
  match checksums with
  | [c] => c
  | cs => Checksum.generate (.arr (cs.map .str))

end ChecksumModel

/-- State of one `ChecksumModel` instance: the persisted `checksums` JSON
field (`None` or a dict whose values may themselves be JSON `null`,
modelled as an inner `Option`), and the two field mappings the concrete
resource type contributes (`get_standard_checksum_fields`, which a type may
define to return `None`, and `get_smart_checksum_fields`, whose default is
the empty dict). -/
structure MState where
  checksums : Option (List (String × Option String))
  standardFields : Option (List (String × JVal))
  smartFields : List (String × JVal)

namespace ChecksumModel

def STANDARD_CHECKSUM_KEY : String := "standard"

def SMART_CHECKSUM_KEY : String := "smart"

/-- First-match lookup on the checksums dict: `some v` iff the key is
present (with the stored, possibly null, value `v`). -/
def csLookup : List (String × Option String) → String → Option (Option String)
  | [], _ => none
  | p :: ps, k => if p.1 = k then some p.2 else csLookup ps k

/-- Python truthiness of the `checksums` field (`None` and `{}` falsy). -/
def csTruthy : Option (List (String × Option String)) → Bool
  | none => false
  | some d => !d.isEmpty

/-- Embeds `has_standard_checksum`: key membership (the class key constant is the
nonempty string `standard`, so the `else True` branch is dead).  The
source would raise on a `None` checksums field; it is only called behind a
truthiness guard, so that path is modelled as `false`. -/
def has_standard_checksum (s : MState) : Bool :=
  match s.checksums with
  | some d => (csLookup d STANDARD_CHECKSUM_KEY).isSome
  | none => false

/-- Embeds `has_smart_checksum` (same notes as `has_standard_checksum`). -/
def has_smart_checksum (s : MState) : Bool :=
  match s.checksums with
  | some d => (csLookup d SMART_CHECKSUM_KEY).isSome
  | none => false

/-- Embeds `has_all_checksums`. -/
def has_all_checksums (s : MState) : Bool :=
  has_standard_checksum s && has_smart_checksum s

/-- Embeds `_calculate_standard_checksum`: `None` if the type's standard field
mapping is `None`, else the checksum of those fields. -/
def _calculate_standard_checksum (s : MState) : Option String :=
  match s.standardFields with
  | none => none
  | some fields => some (generate_checksum (.obj fields))

/-- Embeds `_calculate_smart_checksum`: the checksum of the smart fields if that
mapping is truthy (non-empty), else `None`. -/
def _calculate_smart_checksum (s : MState) : Option String :=
  if s.smartFields.isEmpty then none else some (generate_checksum (.obj s.smartFields))

/-- Embeds `get_all_checksums` with the feature toggle (`Toggle.get` of
`CHECKSUMS_TOGGLE` — modelled from the spec (§9) as an injected boolean
flag, its own source being outside this tree): `None` when the toggle is
off; otherwise a dict with one entry per configured checksum-key constant
— both class constants are nonempty strings, so both entries are present
(the smart entry's value may be null). -/
def get_all_checksums (toggle : Bool) (s : MState) :
    Option (List (String × Option String)) :=
  if toggle then
    some [(STANDARD_CHECKSUM_KEY, _calculate_standard_checksum s),
          (SMART_CHECKSUM_KEY, _calculate_smart_checksum s)]
  else none

/-- Embeds `_calculate_checksums`. -/
def _calculate_checksums (toggle : Bool) (s : MState) :
    Option (List (String × Option String)) :=
  get_all_checksums toggle s

/-- Embeds `set_checksums`: when the toggle is on, recompute and persist (the
`save` call is modelled by the state update); a no-op when it is off. -/
def set_checksums (toggle : Bool) (s : MState) : MState :=
  if toggle then { s with checksums := _calculate_checksums toggle s } else s

/-- Embeds `get_checksums`: toggle off → `None`; cached-and-complete → the cache;
`queue` → hand off to the asynchronous worker and return the current
(possibly empty) cache — the handoff is modelled from the spec (§5): the
in-process state is unchanged and the result is best-effort; otherwise
compute synchronously via `set_checksums`. -/
def get_checksums (toggle : Bool) (s : MState) (queue recalculate : Bool) :
    Option (List (String × Option String)) × MState :=
  if toggle then
    if !recalculate && csTruthy s.checksums && has_all_checksums s then (s.checksums, s)
    else if queue then (some (s.checksums.getD []), s)
    else
      let s' := set_checksums toggle s
      (s'.checksums, s')
  else (none, s)

/-- Embeds `pydash.get(self, 'checksums.standard')`: `None` when the field is
`None`, the key missing, or the stored value null. -/
def csGetPath (c : Option (List (String × Option String))) (k : String) : Option String :=
  match c with
  | none => none
  | some d =>
    match csLookup d k with
    | some (some v) => some v
    | _ => none

/-- The else-branch of the `checksum` property: trigger `get_checksums()`
and read `self.checksums.get('standard')` off the updated state. -/
def checksumFallback (toggle : Bool) (s : MState) : Option String × MState :=
  let s' := (get_checksums toggle s false false).2
  ((match csLookup (s'.checksums.getD []) STANDARD_CHECKSUM_KEY with
    | some v => v
    | none => none), s')

/-- The `checksum` property: `None` when the toggle is off; the cached
standard checksum when it is truthy; otherwise computed as a side effect. -/
def checksum (toggle : Bool) (s : MState) : Option String × MState :=
  if toggle then
    match csGetPath s.checksums STANDARD_CHECKSUM_KEY with
    | some c => if c.isEmpty then checksumFallback toggle s else (some c, s)
    | none => checksumFallback toggle s
  else (none, s)

end ChecksumModel

/-- The two checksums a diffed resource carries (`resource.checksums`);
the differ's precondition (§7) is that both keys are present, their values
possibly null. -/
structure RChecksums where
  standard : Option String
  smart : Option String
deriving DecidableEq

/-- A resource as consumed by `ChecksumDiff`: the identity field (the
default `mnemonic`), the `retired` flag, the persisted checksums and the
database id. -/
structure Resource where
  mnemonic : String
  retired : Bool
  checksums : RChecksums
  rid : Nat
deriving DecidableEq

/-- The value stored per key in a snapshot map: `{'checksums': …, 'id': …}`. -/
structure RInfo where
  checksums : RChecksums
  rid : Nat
deriving DecidableEq

namespace ChecksumDiff

/-- Python dict assignment `d[k] = v` on an association list: an existing
key keeps its position and gets the new value, a new key is appended. -/
def insertA (d : List (String × RInfo)) (k : String) (v : RInfo) :
    List (String × RInfo) :=
  if k ∈ d.map Prod.fst then d.map (fun p => if p.1 = k then (k, v) else p)
  else d ++ [(k, v)]

/-- Embeds `_get_resource_map`: dict comprehension keyed by the identity field
(`mnemonic`), mapping to checksums and id; a duplicate key overwrites. -/
def _get_resource_map (rs : List Resource) : List (String × RInfo) :=
  rs.foldl (fun d r => insertA d r.mnemonic ⟨r.checksums, r.rid⟩) []

/-- Embeds `resources.filter(retired=False)`. -/
def activeList (rs : List Resource) : List Resource :=
  rs.filter (fun r => r.retired == false)

/-- The value of `get_resources_map`. -/
structure ResourcesMaps where
  active : List (String × RInfo)
  retired : List (String × RInfo)

/-- Embeds `get_resources_map` (source lines 189-193).  NOTE: embedded exactly as
written in the source, where BOTH entries are built from the
`retired=False` filter (line 192 repeats the filter of line 191). -/
def get_resources_map (rs : List Resource) : ResourcesMaps :=
  ⟨_get_resource_map (activeList rs), _get_resource_map (activeList rs)⟩

/-- Modelled from the spec: §3/§9 state that the retired snapshot map is
intended to range over the `retired == true` resources (the spec flags
line 192 as a defect).  This is the spec-intended retired map, used to
exhibit the divergence. -/
def retiredMapSpec (rs : List Resource) : List (String × RInfo) :=
  _get_resource_map (rs.filter (fun r => r.retired == true))

def keysOf (d : List (String × RInfo)) : List String := d.map Prod.fst

/-- First-match lookup on a snapshot map (unique keys by construction). -/
def lookupRI : List (String × RInfo) → String → Option RInfo
  | [], _ => none
  | p :: ps, k => if p.1 = k then some p.2 else lookupRI ps k

/-- Access `map[key]` where the key is known to be in the map (the default is
unreachable at the call sites, whose keys come from the map itself). -/
def getRI (d : List (String × RInfo)) (k : String) : RInfo :=
  (lookupRI d k).getD ⟨⟨none, none⟩, 0⟩

def mapActive (rs : List Resource) : List (String × RInfo) :=
  (get_resources_map rs).active

def mapRetired (rs : List Resource) : List (String × RInfo) :=
  (get_resources_map rs).retired

/-- Embeds `resources*_set`: the key set of the active map (as a list of keys). -/
def resourcesSet (rs : List Resource) : List String := keysOf (mapActive rs)

/-- Embeds `resources*_set_retired`. -/
def resourcesSetRetired (rs : List Resource) : List String := keysOf (mapRetired rs)

/-- Set difference of key sets. -/
def diffKeys (a b : List String) : List String :=
  a.filter (fun k => decide (k ∉ b))

/-- Set intersection of key sets. -/
def interKeys (a b : List String) : List String :=
  a.filter (fun k => decide (k ∈ b))

/-- Keys of the `new` category: side-1-active minus side-2-active. -/
def newKeys (rs1 rs2 : List Resource) : List String :=
  diffKeys (resourcesSet rs1) (resourcesSet rs2)

/-- Keys of the `retired` category: side-2-retired-map keys minus
side-1-retired-map keys (with the maps as the source builds them). -/
def retiredDiffKeys (rs1 rs2 : List Resource) : List String :=
  diffKeys (resourcesSetRetired rs2) (resourcesSetRetired rs1)

/-- Modelled from the spec: the `retired` category over the spec-intended
retired maps (`retired == true`). -/
def retiredDiffKeysSpec (rs1 rs2 : List Resource) : List String :=
  diffKeys (keysOf (retiredMapSpec rs2)) (keysOf (retiredMapSpec rs1))

/-- Keys of the `deleted` category: side-2-active minus side-1-active,
minus the keys already in `retired`. -/
def deletedKeys (rs1 rs2 : List Resource) : List String :=
  (diffKeys (resourcesSet rs2) (resourcesSet rs1)).filter
    (fun k => decide (k ∉ retiredDiffKeys rs1 rs2))

/-- Keys of the `common` category: intersection of the active key sets. -/
def commonKeys (rs1 rs2 : List Resource) : List String :=
  interKeys (resourcesSet rs1) (resourcesSet rs2)

/-- The `new` property (a dict from key to side-1 info). -/
def new (rs1 rs2 : List Resource) : List (String × RInfo) :=
  (newKeys rs1 rs2).map (fun k => (k, getRI (mapActive rs1) k))

/-- The `deleted` property (side-2 info, retired keys excluded). -/
def deleted (rs1 rs2 : List Resource) : List (String × RInfo) :=
  (deletedKeys rs1 rs2).map (fun k => (k, getRI (mapActive rs2) k))

/-- The `retired` property (side-2 retired-map info). -/
def retired (rs1 rs2 : List Resource) : List (String × RInfo) :=
  (retiredDiffKeys rs1 rs2).map (fun k => (k, getRI (mapRetired rs2) k))

/-- The `common` property (side-1 info). -/
def common (rs1 rs2 : List Resource) : List (String × RInfo) :=
  (commonKeys rs1 rs2).map (fun k => (k, getRI (mapActive rs1) k))

/-- One entry of the diff result: a bare count, or (very verbose, non-empty
category) a total plus the identity keys. -/
inductive Struct where
  | count (n : Nat)
  | detail (total : Nat) (keys : List String)
deriving DecidableEq

/-- The mutable state of a `ChecksumDiff` instance: the two input
collections, the verbosity, the four accumulator dicts filled by
`populate_diff_from_common`, and the cached `result`.  The five memoized
snapshot maps are pure functions of the immutable inputs and are embedded
as such (`mapActive`/`mapRetired`); their lazy caches are semantically
invisible. -/
structure DiffState where
  resources1 : List Resource
  resources2 : List Resource
  verbosity : Nat
  same : List (String × RInfo)
  same_smart : List (String × RInfo)
  changed_smart : List (String × RInfo)
  changed_standard : List (String × RInfo)
  result : List (String × Struct)

/-- Embeds `__init__`. -/
def init (rs1 rs2 : List Resource) (verbosity : Nat) : DiffState :=
  ⟨rs1, rs2, verbosity, [], [], [], [], []⟩

def is_verbose (st : DiffState) : Bool := decide (st.verbosity ≥ 1)

def is_very_verbose (st : DiffState) : Bool := st.verbosity == 2

def include_same (st : DiffState) : Bool := is_verbose st

/-- Condition `checksums1['standard'] != checksums2['standard']` for a common key. -/
def condStd (rs1 rs2 : List Resource) (k : String) : Prop :=
  (getRI (mapActive rs1) k).checksums.standard ≠ (getRI (mapActive rs2) k).checksums.standard

/-- Condition `checksums1['smart'] != checksums2['smart']` for a common key. -/
def condSmart (rs1 rs2 : List Resource) (k : String) : Prop :=
  (getRI (mapActive rs1) k).checksums.smart ≠ (getRI (mapActive rs2) k).checksums.smart

instance (rs1 rs2 : List Resource) (k : String) : Decidable (condStd rs1 rs2 k) :=
  inferInstanceAs (Decidable (_ ≠ _))

instance (rs1 rs2 : List Resource) (k : String) : Decidable (condSmart rs1 rs2 k) :=
  inferInstanceAs (Decidable (_ ≠ _))

/-- The standard-checksum half of the loop body of
`populate_diff_from_common`: mismatch → `changed_standard[key] = info`,
else with verbosity `same[key] = info`. -/
def populateStepStandard (st : DiffState) (k : String) : DiffState :=
  let info := getRI (mapActive st.resources1) k
  if condStd st.resources1 st.resources2 k then
    { st with changed_standard := insertA st.changed_standard k info }
  else if include_same st then { st with same := insertA st.same k info }
  else st

/-- The smart-checksum half of the loop body (runs after the standard
half, independently of its outcome). -/
def populateStepSmart (st : DiffState) (k : String) : DiffState :=
  let info := getRI (mapActive st.resources1) k
  if condSmart st.resources1 st.resources2 k then
    { st with changed_smart := insertA st.changed_smart k info }
  else if include_same st then { st with same_smart := insertA st.same_smart k info }
  else st

/-- The body of the loop of `populate_diff_from_common` for one common
key: the standard comparison followed by the smart comparison. -/
def populateStep (st : DiffState) (k : String) : DiffState :=
  populateStepSmart (populateStepStandard st k) k

/-- Invariant of the four accumulator dicts: every binding carries the
side-1 info of its key (`common[key]` is `resources1_map[key]`). -/
def goodAcc (st : DiffState) : Prop :=
  (∀ p ∈ st.same, p.2 = getRI (mapActive st.resources1) p.1)
  ∧ (∀ p ∈ st.same_smart, p.2 = getRI (mapActive st.resources1) p.1)
  ∧ (∀ p ∈ st.changed_smart, p.2 = getRI (mapActive st.resources1) p.1)
  ∧ (∀ p ∈ st.changed_standard, p.2 = getRI (mapActive st.resources1) p.1)

/-- Embeds `populate_diff_from_common`. -/
def populate_diff_from_common (st : DiffState) : DiffState :=
  (commonKeys st.resources1 st.resources2).foldl populateStep st

/-- Embeds `get_struct`. -/
def get_struct (st : DiffState) (values : List (String × RInfo)) : Struct :=
  if is_very_verbose st then
    if !values.isEmpty then .detail values.length (values.map Prod.fst)
    else .count values.length
  else .count values.length

/-- Embeds `prepare`: build the result mapping (insertion order as written). -/
def prepare (st : DiffState) : DiffState :=
  { st with result :=
      [("new", get_struct st (new st.resources1 st.resources2)),
       ("removed", get_struct st (deleted st.resources1 st.resources2)),
       ("retired", get_struct st (retired st.resources1 st.resources2)),
       ("changed", get_struct st st.changed_standard),
       ("smart_changed", get_struct st st.changed_smart)]
      ++ (if include_same st then
            [("same", get_struct st st.same),
             ("smart_same", get_struct st st.same_smart)]
          else []) }

/-- Embeds `process`: on `refresh`, clear the cached result; return the cache when
non-empty, else populate and prepare. -/
def process (st : DiffState) (refresh : Bool) : List (String × Struct) × DiffState :=
  let st0 := if refresh then { st with result := [] } else st
  if !st0.result.isEmpty then (st0.result, st0)
  else
    let st1 := populate_diff_from_common st0
    let st2 := prepare st1
    (st2.result, st2)

end ChecksumDiff

/-- The claim's four kinds of ignorable difference, as stated (C5): erase
null-valued fields, a `retired` field holding `false`, an `is_active` field
holding `true`, and the double-underscore keys inside an `extras` value. -/
def eraseEntryStated (k : String) (v : JVal) : Option (String × JVal) :=
  match v with
  | .null => none
  | .bool false => if k = retiredKey then none else some (k, .bool false)
  | .bool true => if k = isActiveKey then none else some (k, .bool true)
  | .obj inner =>
    if k = extrasKey then some (k, .obj (stripDunder inner)) else some (k, .obj inner)
  | v => some (k, v)

/-- Entry-wise erasure over a field mapping, claim C5 as stated: two
mappings "differ only in" the claim's four respects iff their erasures are
equal. -/
def eraseStated (kvs : List (String × JVal)) : List (String × JVal) :=
  kvs.filterMap (fun p => eraseEntryStated p.1 p.2)

/-- The amended form of the C5 erasure: double-underscore keys inside
`extras` are ignorable only when stripping them leaves the `extras` value
non-empty (an `extras` consisting solely of double-underscore keys is
stripped to an empty — but present — dict by the code, while an
initially-empty `extras` is dropped, so the two are distinguishable). -/
def eraseEntryAmended (k : String) (v : JVal) : Option (String × JVal) :=
  match v with
  | .null => none
  | .bool false => if k = retiredKey then none else some (k, .bool false)
  | .bool true => if k = isActiveKey then none else some (k, .bool true)
  | .obj inner =>
    if k = extrasKey && !(stripDunder inner).isEmpty then some (k, .obj (stripDunder inner))
    else some (k, .obj inner)
  | v => some (k, v)

/-- Entry-wise amended erasure. -/
def eraseAmended (kvs : List (String × JVal)) : List (String × JVal) :=
  kvs.filterMap (fun p => eraseEntryAmended p.1 p.2)

/-- Whether a value is a Python list. -/
def isArr : JVal → Bool
  | .arr _ => true
  | _ => false

/-- Whether a value is a Python dict (the only shape `_cleanup` rebuilds). -/
def isObj : JVal → Bool
  | .obj _ => true
  | _ => false

/-- Whether a value is a one-element Python list (the shape `_serialize`
unwraps). -/
def isSingletonArr : JVal → Bool
  | .arr (_ :: ([] : List JVal)) => true
  | _ => false

/-- The single unwrap step at the top of `_serialize`: a one-element list
becomes its element, everything else is unchanged. -/
def unwrap : JVal → JVal
  | .arr (x :: ([] : List JVal)) => x
  | v => v

/-! ### Properties of the string order underlying the modelled sort -/

theorem charListLe_total (as bs : List Char) :
    charListLe as bs = true ∨ charListLe bs as = true := by
  induction as generalizing bs with
  | nil => left; rfl
  | cons a as ih =>
    cases bs with
    | nil => right; rfl
    | cons b bs =>
      simp only [charListLe]
      rcases Nat.lt_trichotomy a.toNat b.toNat with h | h | h
      · left; simp [h]
      · simp [h, Nat.lt_irrefl]
        exact ih bs
      · right; simp [h, Nat.lt_asymm h]

theorem charListLe_trans (as : List Char) : ∀ bs cs : List Char,
    charListLe as bs = true → charListLe bs cs = true → charListLe as cs = true := by
  induction as with
  | nil => intro bs cs _ _; rfl
  | cons a as ih =>
    intro bs cs h1 h2
    cases bs with
    | nil => simp [charListLe] at h1
    | cons b bs =>
      cases cs with
      | nil => simp [charListLe] at h2
      | cons c cs =>
        simp only [charListLe] at h1 h2 ⊢
        by_cases hab : a.toNat < b.toNat
        · by_cases hbc : b.toNat < c.toNat
          · simp [show a.toNat < c.toNat by omega]
          · by_cases hcb : c.toNat < b.toNat
            · simp [hbc, hcb] at h2
            · simp [show a.toNat < c.toNat by omega]
        · by_cases hba : b.toNat < a.toNat
          · simp [hab, hba] at h1
          · by_cases hbc : b.toNat < c.toNat
            · simp [show a.toNat < c.toNat by omega]
            · by_cases hcb : c.toNat < b.toNat
              · simp [hbc, hcb] at h2
              · simp [hab, hba] at h1
                simp [hbc, hcb] at h2
                simp [show ¬a.toNat < c.toNat by omega, show ¬c.toNat < a.toNat by omega]
                exact ih bs cs h1 h2

theorem charLe_antisymm (a b : Char) (h : a.toNat = b.toNat) : a = b :=
  Char.eq_of_val_eq (UInt32.eq_of_val_eq (Fin.eq_of_val_eq h))

theorem charListLe_antisymm (as : List Char) : ∀ bs : List Char,
    charListLe as bs = true → charListLe bs as = true → as = bs := by
  induction as with
  | nil =>
    intro bs _ h2
    cases bs with
    | nil => rfl
    | cons b bs => simp [charListLe] at h2
  | cons a as ih =>
    intro bs h1 h2
    cases bs with
    | nil => simp [charListLe] at h1
    | cons b bs =>
      simp only [charListLe] at h1 h2
      by_cases hab : a.toNat < b.toNat
      · simp [hab, Nat.lt_asymm hab] at h2
      · by_cases hba : b.toNat < a.toNat
        · simp [hab, hba] at h1
        · simp [hab, hba] at h1
          simp [hab, hba] at h2
          exact congrArg₂ List.cons (charLe_antisymm a b (by omega)) (ih bs h1 h2)

theorem string_toList_inj {a b : String} (h : a.toList = b.toList) : a = b := by
  cases a
  cases b
  simp only [String.toList] at h
  exact congrArg String.mk h

instance : IsTotal String (keyRel id) :=
  ⟨fun a b => charListLe_total a.toList b.toList⟩

instance : IsTrans String (keyRel id) :=
  ⟨fun a b c h1 h2 => charListLe_trans a.toList b.toList c.toList h1 h2⟩

instance : IsAntisymm String (keyRel id) :=
  ⟨fun a b h1 h2 => string_toList_inj (charListLe_antisymm a.toList b.toList h1 h2)⟩

theorem generic_sort_perm {α : Type} (key : α → String) (l : List α) :
    List.Perm (generic_sort key l) l :=
  List.perm_insertionSort _ _

/-- Sorting string keys is a function of the key multiset: permuted inputs
sort identically. -/
theorem generic_sort_strings_eq {l₁ l₂ : List String} (h : List.Perm l₁ l₂) :
    generic_sort id l₁ = generic_sort id l₂ := by
  unfold generic_sort
  exact List.eq_of_perm_of_sorted
    ((List.perm_insertionSort _ l₁).trans (h.trans (List.perm_insertionSort _ l₂).symm))
    (List.sorted_insertionSort _ _) (List.sorted_insertionSort _ _)

/-! ### Size lemmas and fuel irrelevance of the serializer -/

theorem jsize_pos (v : JVal) : 1 ≤ jsize v := by
  cases v <;> simp [jsize]

theorem jsize_le_of_mem {x : JVal} {xs : List JVal} (h : x ∈ xs) :
    jsize x ≤ jsizeL xs := by
  induction xs with
  | nil => cases h
  | cons y ys ih =>
    rcases List.mem_cons.1 h with rfl | h'
    · simp [jsizeL]
    · have := ih h'
      simp only [jsizeL]
      omega

theorem jlookupD_jsize_le {kvs : List (String × JVal)} {k : String}
    (h : k ∈ kvs.map Prod.fst) : jsize (jlookupD kvs k) ≤ jsizeKV kvs := by
  induction kvs with
  | nil => cases h
  | cons p ps ih =>
    simp only [jlookupD, jsizeKV]
    split_ifs with hk
    · omega
    · rcases List.mem_cons.1 h with h' | h'
      · exact absurd (h'.symm) hk
      · have := ih h'
        omega

theorem jsizeKV_perm {kvs₁ kvs₂ : List (String × JVal)} (h : List.Perm kvs₁ kvs₂) :
    jsizeKV kvs₁ = jsizeKV kvs₂ := by
  induction h with
  | nil => rfl
  | cons p _ ih => simp only [jsizeKV]; omega
  | swap p q l => simp only [jsizeKV]; omega
  | trans _ _ ih₁ ih₂ => exact ih₁.trans ih₂

theorem unwrap_jsize_le (v : JVal) : jsize (unwrap v) ≤ jsize v := by
  cases v with
  | arr xs =>
    cases xs with
    | nil => exact le_rfl
    | cons x t =>
      cases t with
      | nil => simp [unwrap, jsize, jsizeL]
      | cons y t2 => exact le_rfl
  | _ => exact le_rfl

theorem serializeF_succ (f : Nat) (v : JVal) :
    Checksum.serializeF (f + 1) v = Checksum.serializeStep (Checksum.serializeF f) (unwrap v) := by
  cases v with
  | arr xs =>
    cases xs with
    | nil => rfl
    | cons x t => cases t with
      | nil => rfl
      | cons y t2 => rfl
  | _ => rfl

theorem serializeStep_congr (r r' : JVal → String) (w : JVal)
    (h : ∀ u : JVal, jsize u < jsize w → r u = r' u) :
    Checksum.serializeStep r w = Checksum.serializeStep r' w := by
  cases w with
  | arr xs =>
    simp only [Checksum.serializeStep]
    have : (generic_sort rawEncode xs).map r = (generic_sort rawEncode xs).map r' := by
      apply List.map_congr_left
      intro e he
      apply h
      have hmem : e ∈ xs := (generic_sort_perm rawEncode xs).subset he
      have := jsize_le_of_mem hmem
      simp only [jsize]
      omega
    rw [this]
  | obj kvs =>
    simp only [Checksum.serializeStep]
    have : (generic_sort id (kvs.map Prod.fst)).map (fun k => r (jlookupD kvs k) ++ ",")
        = (generic_sort id (kvs.map Prod.fst)).map (fun k => r' (jlookupD kvs k) ++ ",") := by
      apply List.map_congr_left
      intro k hk
      have hmem : k ∈ kvs.map Prod.fst := (generic_sort_perm id _).subset hk
      have := jlookupD_jsize_le hmem
      rw [h (jlookupD kvs k) (by simp only [jsize]; omega)]
    rw [this]
  | _ => rfl

/-- Fuel irrelevance: any fuel at least `jsize` of the input produces the
same serialization. -/
theorem serializeF_irrel (n : Nat) : ∀ (v : JVal) (f g : Nat),
    jsize v ≤ n → jsize v ≤ f → jsize v ≤ g →
    Checksum.serializeF f v = Checksum.serializeF g v := by
  induction n using Nat.strong_induction_on with
  | _ n ih =>
    intro v f g hn hf hg
    have hv := jsize_pos v
    cases f with
    | zero => omega
    | succ f' =>
      cases g with
      | zero => omega
      | succ g' =>
        rw [serializeF_succ, serializeF_succ]
        apply serializeStep_congr
        intro u hu
        have huw : jsize (unwrap v) ≤ jsize v := unwrap_jsize_le v
        exact ih (jsize u) (by omega) u f' g' le_rfl (by omega) (by omega)

/-- Any sufficient fuel computes `_serialize`. -/
theorem serializeF_eq_serialize (v : JVal) (f : Nat) (h : jsize v ≤ f) :
    Checksum.serializeF f v = Checksum._serialize v :=
  serializeF_irrel f v f (jsize v) h h le_rfl

/-! ### Lookup and unwrap facts -/

theorem unwrap_obj (kvs : List (String × JVal)) : unwrap (.obj kvs) = .obj kvs := rfl

theorem unwrap_arr_one (x : JVal) : unwrap (.arr [x]) = x := rfl

theorem jlookupD_perm {kvs₁ kvs₂ : List (String × JVal)} (h : List.Perm kvs₁ kvs₂) :
    (kvs₁.map Prod.fst).Nodup → ∀ k, jlookupD kvs₁ k = jlookupD kvs₂ k := by
  induction h with
  | nil => intro _ _; rfl
  | cons p h' ih =>
    intro hnd k
    simp only [jlookupD]
    split_ifs with hk
    · rfl
    · exact ih (by simpa using (List.nodup_cons.1 (by simpa using hnd)).2) k
  | swap p q l =>
    intro hnd k
    have hne : q.1 ≠ p.1 := by
      simp only [List.map_cons, List.nodup_cons, List.mem_cons] at hnd
      exact fun e => hnd.1 (Or.inl e)
    simp only [jlookupD]
    by_cases h1 : q.1 = k <;> by_cases h2 : p.1 = k
    · exact absurd (h1.trans h2.symm) hne
    · simp [h1, h2]
    · simp [h1, h2]
    · simp [h1, h2]
  | trans h₁ h₂ ih₁ ih₂ =>
    intro hnd k
    have hnd₂ := ((h₁.map Prod.fst).nodup_iff).1 hnd
    exact (ih₁ hnd k).trans (ih₂ hnd₂ k)

theorem serializeF_succ_notSingleton (f : Nat) (v : JVal) (h : isSingletonArr v = false) :
    Checksum.serializeF (f + 1) v = Checksum.serializeStep (Checksum.serializeF f) v := by
  cases v with
  | arr xs =>
    cases xs with
    | nil => rfl
    | cons x t =>
      cases t with
      | nil => simp [isSingletonArr] at h
      | cons y t2 => rfl
  | _ => rfl

/-- C3: the serialization of a dict does not depend on the insertion order
of its key/value pairs: any permutation of the entry list (with the
distinct keys a Python dict guarantees) serializes identically. -/
theorem serialize_insertion_order_independent (kvs₁ kvs₂ : List (String × JVal))
    (hperm : List.Perm kvs₁ kvs₂) (hnd : (kvs₁.map Prod.fst).Nodup) :
    Checksum._serialize (.obj kvs₁) = Checksum._serialize (.obj kvs₂) := by
  have hkeys := generic_sort_strings_eq (hperm.map Prod.fst)
  have hsize := jsizeKV_perm hperm
  have hlook := jlookupD_perm hperm hnd
  unfold Checksum._serialize
  have e1 : jsize (JVal.obj kvs₁) = jsizeKV kvs₁ + 1 := by simp [jsize]; omega
  have e2 : jsize (JVal.obj kvs₂) = jsizeKV kvs₂ + 1 := by simp [jsize]; omega
  rw [e1, e2, serializeF_succ, serializeF_succ, unwrap_obj, unwrap_obj]
  simp only [Checksum.serializeStep]
  rw [hkeys, hsize]
  simp only [hlook]

/-- Witness for C3 at a two-entry dict with swapped insertion order. -/
theorem serialize_insertion_order_independent_witness :
    List.Perm [(("b" : String), JVal.int 1), ("a", JVal.int 2)]
      [(("a" : String), JVal.int 2), ("b", JVal.int 1)]
    ∧ ([(("b" : String), JVal.int 1), ("a", JVal.int 2)].map Prod.fst).Nodup
    ∧ Checksum._serialize (.obj [("b", .int 1), ("a", .int 2)])
      = Checksum._serialize (.obj [("a", .int 2), ("b", .int 1)]) :=
  ⟨List.Perm.swap _ _ _, by decide,
    serialize_insertion_order_independent _ _ (List.Perm.swap _ _ _) (by decide)⟩

/-- C7, counterexample to the claim as stated: for `x = [5]` (a
one-element list), `serialize([x])` is `"[5]"` while `serialize(x)` is
`"5"` — the unwrap happens only once, before the list branch, so a nested
singleton does not unwrap twice. -/
theorem serialize_singleton_unwrap_cex :
    Checksum._serialize (.arr [.arr [.int 5]]) ≠ Checksum._serialize (.arr [.int 5]) := by
  decide

/-- C7 as amended: `serialize([x]) = serialize(x)` for every `x` that is
not itself a one-element list. -/
theorem serialize_singleton_unwrap_amended (x : JVal) (h : isSingletonArr x = false) :
    Checksum._serialize (.arr [x]) = Checksum._serialize x := by
  have hx := jsize_pos x
  have e1 : jsize (JVal.arr [x]) = jsize x + 1 := by simp [jsize, jsizeL]; omega
  unfold Checksum._serialize
  rw [e1, serializeF_succ, unwrap_arr_one]
  have e2 : jsize x = (jsize x - 1) + 1 := by omega
  conv_rhs => rw [e2]
  rw [serializeF_succ_notSingleton _ x h]
  apply serializeStep_congr
  intro u hu
  exact serializeF_irrel (jsize u) u (jsize x) (jsize x - 1) le_rfl (by omega) (by omega)

/-- Witness for C7 (amended) at `x = 5`. -/
theorem serialize_singleton_unwrap_amended_witness :
    isSingletonArr (.int 5) = false
    ∧ Checksum._serialize (.arr [.int 5]) = Checksum._serialize (.int 5) :=
  ⟨rfl, serialize_singleton_unwrap_amended (.int 5) rfl⟩

/-- C4: `generate_checksum_from_many` coincides with `generate_checksum`
on a one-element list and on a single non-list value, and on a two-element
list it equals `generate_checksum` of the list of the two digests. -/
theorem generate_from_many_combine_law (x y : JVal) (hxy : x ≠ y) :
    ChecksumModel.generate_checksum_from_many (.arr [x]) = ChecksumModel.generate_checksum x
    ∧ (isArr x = false →
        ChecksumModel.generate_checksum_from_many x = ChecksumModel.generate_checksum x)
    ∧ ChecksumModel.generate_checksum_from_many (.arr [x, y])
      = ChecksumModel.generate_checksum
          (.arr [.str (ChecksumModel.generate_checksum x),
                 .str (ChecksumModel.generate_checksum y)]) := by
  refine ⟨?_, ?_, ?_⟩
  · simp [ChecksumModel.generate_checksum_from_many, ChecksumModel.generate_checksum]
  · intro hx
    cases x <;>
      simp [isArr] at hx ⊢ <;>
      simp [ChecksumModel.generate_checksum_from_many, ChecksumModel.generate_checksum]
  · simp [ChecksumModel.generate_checksum_from_many, ChecksumModel.generate_checksum,
      ChecksumModel._cleanup]

/-- Witness for C4 at `x = 1`, `y = 2`. -/
theorem generate_from_many_combine_law_witness :
    JVal.int 1 ≠ JVal.int 2
    ∧ (ChecksumModel.generate_checksum_from_many (.arr [.int 1])
        = ChecksumModel.generate_checksum (.int 1)
      ∧ (isArr (.int 1) = false →
          ChecksumModel.generate_checksum_from_many (.int 1)
            = ChecksumModel.generate_checksum (.int 1))
      ∧ ChecksumModel.generate_checksum_from_many (.arr [.int 1, .int 2])
        = ChecksumModel.generate_checksum
            (.arr [.str (ChecksumModel.generate_checksum (.int 1)),
                   .str (ChecksumModel.generate_checksum (.int 2))])) :=
  ⟨fun h => absurd (JVal.int.inj h) (by decide),
    generate_from_many_combine_law (.int 1) (.int 2)
      (fun h => absurd (JVal.int.inj h) (by decide))⟩

/-! ### C5: cleanup insensitivity -/

theorem stripDunder_any_false (inner : List (String × JVal)) :
    (stripDunder inner).any (fun p => isDunder p.1) = false := by
  rw [List.any_eq_false]
  intro p hp
  have := (List.mem_filter.1 hp).2
  simp only [Bool.not_eq_true'] at this
  simp [this]

theorem stripDunder_eq_self (inner : List (String × JVal))
    (hd : inner.any (fun p => isDunder p.1) = false) : stripDunder inner = inner := by
  apply List.filter_eq_self.mpr
  intro p hp
  rw [List.any_eq_false] at hd
  simpa using hd p hp

theorem stripDunder_nonempty (inner : List (String × JVal))
    (hs : (stripDunder inner).isEmpty = false) : inner.isEmpty = false := by
  cases inner with
  | nil => simp [stripDunder] at hs
  | cons p ps => rfl

/-- Per-entry factorization: the code's cleanup absorbs the amended
claim-level erasure. -/
theorem cleanupEntry_eraseAmended (k : String) (v : JVal) :
    (eraseEntryAmended k v).bind (fun p => ChecksumModel.cleanupEntry p.1 p.2)
      = ChecksumModel.cleanupEntry k v := by
  cases v with
  | null => rfl
  | bool b =>
    cases b with
    | false =>
      by_cases hk : k = retiredKey
      · simp [eraseEntryAmended, hk, ChecksumModel.cleanupEntry, truthy]
      · simp [eraseEntryAmended, hk]
    | true =>
      by_cases hk : k = isActiveKey
      · subst hk
        simp [eraseEntryAmended, ChecksumModel.cleanupEntry, truthy]
      · simp [eraseEntryAmended, hk]
  | obj inner =>
    by_cases hk : k = extrasKey
    · subst hk
      by_cases hs : (stripDunder inner).isEmpty
      · simp [eraseEntryAmended, hs]
      · rw [Bool.not_eq_true] at hs
        have hne := stripDunder_nonempty inner hs
        simp only [eraseEntryAmended, hs]
        simp only [Bool.not_false, Bool.and_true, decide_True, if_pos]
        simp only [Option.some_bind]
        simp only [ChecksumModel.cleanupEntry, truthy, hs, hne]
        rw [stripDunder_any_false]
        by_cases hd : inner.any (fun p => isDunder p.1)
        · simp [hd]
        · rw [Bool.not_eq_true] at hd
          simp [hd, stripDunder_eq_self inner hd]
    · simp [eraseEntryAmended, hk]
  | int n => rfl
  | str s => rfl
  | uuid u => rfl
  | arr xs => rfl

theorem cleanupL_eraseAmended (kvs : List (String × JVal)) :
    ChecksumModel.cleanupL (eraseAmended kvs) = ChecksumModel.cleanupL kvs := by
  unfold ChecksumModel.cleanupL eraseAmended
  rw [List.filterMap_filterMap]
  congr 1
  funext p
  exact cleanupEntry_eraseAmended p.1 p.2

/-- C5, counterexample to the claim as stated: the two mappings differ
only in a double-underscore key inside `extras` (their stated erasures are
equal), yet their checksums differ — the code strips an all-dunder
`extras` down to an empty-but-present dict, while an initially-empty
`extras` is dropped entirely. -/
theorem cleanup_default_insensitivity_cex :
    eraseStated [(extrasKey, JVal.obj [(("__a" : String), JVal.str ("x"))])]
      = eraseStated [(extrasKey, JVal.obj [])]
    ∧ ChecksumModel.generate_checksum (.obj [(extrasKey, .obj [(("__a" : String), .str ("x"))])])
      ≠ ChecksumModel.generate_checksum (.obj [(extrasKey, .obj [])]) :=
  ⟨rfl, by decide⟩

/-- C5 as amended: two field mappings whose amended erasures coincide
(differing only in null fields, `retired = false`, `is_active = true`, or
dunder keys inside `extras` whose removal leaves `extras` non-empty)
receive identical checksums. -/
theorem cleanup_default_insensitivity_amended (m₁ m₂ : List (String × JVal))
    (h : eraseAmended m₁ = eraseAmended m₂) :
    ChecksumModel.generate_checksum (.obj m₁) = ChecksumModel.generate_checksum (.obj m₂) := by
  unfold ChecksumModel.generate_checksum
  have hcl : ChecksumModel._cleanup (.obj m₁) = ChecksumModel._cleanup (.obj m₂) := by
    simp only [ChecksumModel._cleanup]
    rw [← cleanupL_eraseAmended m₁, ← cleanupL_eraseAmended m₂, h]
  rw [hcl]

/-- Witness for C5 (amended): `is_active = true` on one side, a null field
on the other. -/
theorem cleanup_default_insensitivity_amended_witness :
    eraseAmended [(isActiveKey, JVal.bool true), (("a" : String), JVal.int 1)]
      = eraseAmended [(("a" : String), JVal.int 1), ("b", JVal.null)]
    ∧ ChecksumModel.generate_checksum (.obj [(isActiveKey, .bool true), (("a" : String), .int 1)])
      = ChecksumModel.generate_checksum (.obj [(("a" : String), .int 1), ("b", .null)]) :=
  ⟨rfl, cleanup_default_insensitivity_amended _ _ rfl⟩

/-- C6: with the feature toggle off, `get_checksums`, `set_checksums` and
the `checksum` property all return an absent result without raising, and
the stored checksums mapping is unchanged. -/
theorem toggle_off_noop (s : MState) (queue recalculate : Bool) :
    ChecksumModel.get_checksums false s queue recalculate = (none, s)
    ∧ ChecksumModel.set_checksums false s = s
    ∧ ChecksumModel.checksum false s = (none, s) := by
  refine ⟨?_, ?_, ?_⟩ <;> simp [ChecksumModel.get_checksums, ChecksumModel.set_checksums,
    ChecksumModel.checksum]

/-- C9: with the toggle on, `get_all_checksums` returns a dict holding
both the `standard` and the `smart` key; when the smart field mapping is
empty (the default), the `smart` key is present with a null value, so
`has_all_checksums` holds after `set_checksums` and a subsequent
`get_checksums` takes the cached branch, leaving the state unchanged. -/
theorem get_all_checksums_complete (s : MState) (hsmart : s.smartFields = []) :
    (∃ d, ChecksumModel.get_all_checksums true s = some d
       ∧ (ChecksumModel.csLookup d ChecksumModel.STANDARD_CHECKSUM_KEY).isSome = true
       ∧ ChecksumModel.csLookup d ChecksumModel.SMART_CHECKSUM_KEY = some none)
    ∧ ChecksumModel.has_all_checksums (ChecksumModel.set_checksums true s) = true
    ∧ ChecksumModel.get_checksums true (ChecksumModel.set_checksums true s) false false
      = ((ChecksumModel.set_checksums true s).checksums, ChecksumModel.set_checksums true s) := by
  have hne1 : ChecksumModel.STANDARD_CHECKSUM_KEY ≠ ChecksumModel.SMART_CHECKSUM_KEY := by decide
  have e : ChecksumModel.set_checksums true s
      = { s with checksums := some ([(ChecksumModel.STANDARD_CHECKSUM_KEY,
          ChecksumModel._calculate_standard_checksum s), (ChecksumModel.SMART_CHECKSUM_KEY,
          ChecksumModel._calculate_smart_checksum s)]) } := rfl
  have hall : ChecksumModel.has_all_checksums (ChecksumModel.set_checksums true s) = true := by
    rw [e]
    simp [ChecksumModel.has_all_checksums, ChecksumModel.has_standard_checksum,
      ChecksumModel.has_smart_checksum, ChecksumModel.csLookup, hne1]
  refine ⟨⟨_, rfl, ?_, ?_⟩, hall, ?_⟩
  · simp [ChecksumModel.csLookup]
  · simp [ChecksumModel.csLookup, hne1, ChecksumModel._calculate_smart_checksum, hsmart]
  · have htr : ChecksumModel.csTruthy (ChecksumModel.set_checksums true s).checksums = true := by
      rw [e]
      rfl
    simp only [ChecksumModel.get_checksums]
    simp [htr, hall]

/-- Witness for C9 at a state with one standard field and the default
empty smart mapping. -/
theorem get_all_checksums_complete_witness :
    (⟨none, some [(("f" : String), JVal.int 1)], []⟩ : MState).smartFields = []
    ∧ ((∃ d, ChecksumModel.get_all_checksums true ⟨none, some [(("f" : String), JVal.int 1)], []⟩
           = some d
         ∧ (ChecksumModel.csLookup d ChecksumModel.STANDARD_CHECKSUM_KEY).isSome = true
         ∧ ChecksumModel.csLookup d ChecksumModel.SMART_CHECKSUM_KEY = some none)
      ∧ ChecksumModel.has_all_checksums
          (ChecksumModel.set_checksums true ⟨none, some [(("f" : String), JVal.int 1)], []⟩) = true
      ∧ ChecksumModel.get_checksums true
          (ChecksumModel.set_checksums true ⟨none, some [(("f" : String), JVal.int 1)], []⟩)
          false false
        = ((ChecksumModel.set_checksums true
              ⟨none, some [(("f" : String), JVal.int 1)], []⟩).checksums,
           ChecksumModel.set_checksums true ⟨none, some [(("f" : String), JVal.int 1)], []⟩)) :=
  ⟨rfl, get_all_checksums_complete _ rfl⟩

/-- C10: `_cleanup` acts only on the top level of a dict: non-dict inputs
are returned unchanged; a nested dict under a non-special key survives
verbatim (so null, `retired = false` and `is_active = true` entries inside
it are preserved); and inside `extras` only the keys directly carrying a
double-underscore prefix are removed, the remaining entries surviving
verbatim. -/
theorem cleanup_top_level_only :
    (∀ v : JVal, isObj v = false → ChecksumModel._cleanup v = v)
    ∧ (∀ (m : List (String × JVal)) (k : String) (inner : List (String × JVal)),
        k ≠ retiredKey → k ≠ isActiveKey → k ≠ extrasKey →
        (k, JVal.obj inner) ∈ m → (k, JVal.obj inner) ∈ ChecksumModel.cleanupL m)
    ∧ (∀ (m : List (String × JVal)) (inner : List (String × JVal)),
        (extrasKey, JVal.obj inner) ∈ m → inner ≠ [] →
        (extrasKey, JVal.obj (stripDunder inner)) ∈ ChecksumModel.cleanupL m) := by
  refine ⟨?_, ?_, ?_⟩
  · intro v hv
    cases v <;> simp [isObj] at hv ⊢ <;> rfl
  · intro m k inner hkr hka hke hm
    apply List.mem_filterMap.mpr
    refine ⟨(k, JVal.obj inner), hm, ?_⟩
    simp [ChecksumModel.cleanupEntry, hkr, hka, hke]
  · intro m inner hm hne
    apply List.mem_filterMap.mpr
    refine ⟨(extrasKey, JVal.obj inner), hm, ?_⟩
    have htr : truthy (JVal.obj inner) = true := by
      cases inner with
      | nil => exact absurd rfl hne
      | cons p ps => rfl
    have h1 : extrasKey ≠ retiredKey := by decide
    have h2 : extrasKey ≠ isActiveKey := by decide
    simp only [ChecksumModel.cleanupEntry]
    simp only [h1, h2, htr]
    by_cases hd : inner.any (fun p => isDunder p.1)
    · simp [hd]
    · rw [Bool.not_eq_true] at hd
      simp [hd, stripDunder_eq_self inner hd]

/-- Witness for C10: a non-dict value; a nested dict under a plain key
with a `retired = false` entry inside; an `extras` with one dunder and one
plain entry. -/
theorem cleanup_top_level_only_witness :
    ChecksumModel._cleanup (.int 3) = .int 3
    ∧ ((("x" : String), JVal.obj [(retiredKey, JVal.bool false)])
        ∈ ChecksumModel.cleanupL [(("x" : String), JVal.obj [(retiredKey, JVal.bool false)])])
    ∧ ((extrasKey, JVal.obj (stripDunder [(("__a" : String), JVal.int 1), ("b", JVal.int 2)]))
        ∈ ChecksumModel.cleanupL
            [(extrasKey, JVal.obj [(("__a" : String), JVal.int 1), ("b", JVal.int 2)])]) :=
  ⟨cleanup_top_level_only.1 _ rfl,
   cleanup_top_level_only.2.1 _ _ _ (by decide) (by decide) (by decide) (List.Mem.head _),
   cleanup_top_level_only.2.2 _ _ (List.Mem.head _) (by simp)⟩

/-- C1, evaluation at the failing input: a single resource retired on side
2 and nothing on side 1.  The source builds the "retired" snapshot map
with the `retired=False` filter (line 192), so the retired resource never
enters it and the `retired` diff category is empty, while the
spec-intended maps (over `retired == true`) yield exactly that key. -/
theorem retired_map_bug_eval :
    ChecksumDiff.retiredDiffKeys [] [⟨("r1" : String), true, ⟨some ("h"), none⟩, 1⟩] = []
    ∧ ChecksumDiff.mapRetired [⟨("r1" : String), true, ⟨some ("h"), none⟩, 1⟩] = []
    ∧ ChecksumDiff.retiredMapSpec [⟨("r1" : String), true, ⟨some ("h"), none⟩, 1⟩]
      = [(("r1" : String), ⟨⟨some ("h"), none⟩, 1⟩)]
    ∧ ChecksumDiff.retiredDiffKeysSpec [] [⟨("r1" : String), true, ⟨some ("h"), none⟩, 1⟩]
      = [("r1" : String)] := by
  decide

/-- C2, evaluation at the failing input: one active resource `a` on side 2
and nothing on side 1.  Its key is in the side-2 active key set but lands
in none of `new`, `deleted`, `common`: because the "retired" map is built
from the same `retired=False` filter, the key is classified `retired` and
excluded from `deleted`. -/
theorem diff_partition_bug_eval :
    ("a" : String) ∈ ChecksumDiff.resourcesSet [⟨("a" : String), false, ⟨some ("h"), none⟩, 1⟩]
    ∧ ("a" : String) ∉ ChecksumDiff.newKeys [] [⟨("a" : String), false, ⟨some ("h"), none⟩, 1⟩]
    ∧ ("a" : String) ∉ ChecksumDiff.deletedKeys [] [⟨("a" : String), false, ⟨some ("h"), none⟩, 1⟩]
    ∧ ("a" : String) ∉ ChecksumDiff.commonKeys [] [⟨("a" : String), false, ⟨some ("h"), none⟩, 1⟩]
    ∧ ("a" : String) ∈ ChecksumDiff.retiredDiffKeys [] [⟨("a" : String), false, ⟨some ("h"), none⟩, 1⟩] := by
  decide

/-! ### C8: the differ's result cache -/

namespace ChecksumDiff

theorem self_mem_keys_insertA (d : List (String × RInfo)) (k : String) (v : RInfo) :
    k ∈ (insertA d k v).map Prod.fst := by
  unfold insertA
  split_ifs with h
  · rw [List.map_map]
    rcases List.mem_map.1 h with ⟨p, hp, hpk⟩
    exact List.mem_map.mpr ⟨p, hp, by simp [hpk]⟩
  · simp

theorem keys_insertA_mono (d : List (String × RInfo)) (k : String) (v : RInfo) {k' : String}
    (h : k' ∈ d.map Prod.fst) : k' ∈ (insertA d k v).map Prod.fst := by
  unfold insertA
  split_ifs with hm
  · rw [List.map_map]
    rcases List.mem_map.1 h with ⟨p, hp, hpk⟩
    by_cases hpk2 : p.1 = k
    · exact List.mem_map.mpr ⟨p, hp, by simp [hpk2, ← hpk]⟩
    · refine List.mem_map.mpr ⟨p, hp, ?_⟩
      show (if p.1 = k then (k, v) else p).1 = k'
      rw [if_neg hpk2]
      exact hpk
  · simp [h]

theorem mem_insertA (d : List (String × RInfo)) (k : String) (v : RInfo) {p : String × RInfo}
    (h : p ∈ insertA d k v) : p ∈ d ∨ p = (k, v) := by
  unfold insertA at h
  split_ifs at h with hm
  · rcases List.mem_map.1 h with ⟨q, hq, hqe⟩
    by_cases hqk : q.1 = k
    · right; rw [← hqe]; simp [hqk]
    · left; rw [← hqe]; simp [hqk]; exact hq
  · rcases List.mem_append.1 h with h | h
    · left; exact h
    · right; simpa using h

theorem insertA_eq_self (d : List (String × RInfo)) (k : String) (v : RInfo)
    (hk : k ∈ d.map Prod.fst) (hb : ∀ p ∈ d, p.1 = k → p.2 = v) :
    insertA d k v = d := by
  unfold insertA
  rw [if_pos hk]
  conv_rhs => rw [← List.map_id d]
  apply List.map_congr_left
  intro p hp
  by_cases hpk : p.1 = k
  · have h2 := hb p hp hpk
    simp only [if_pos hpk, id]
    rw [← hpk, ← h2]
  · simp [hpk]

theorem stepStd_resources1 (st : DiffState) (k : String) :
    (populateStepStandard st k).resources1 = st.resources1 := by
  unfold populateStepStandard; split_ifs <;> rfl

theorem stepStd_resources2 (st : DiffState) (k : String) :
    (populateStepStandard st k).resources2 = st.resources2 := by
  unfold populateStepStandard; split_ifs <;> rfl

theorem stepStd_verbosity (st : DiffState) (k : String) :
    (populateStepStandard st k).verbosity = st.verbosity := by
  unfold populateStepStandard; split_ifs <;> rfl

theorem stepStd_result (st : DiffState) (k : String) :
    (populateStepStandard st k).result = st.result := by
  unfold populateStepStandard; split_ifs <;> rfl

theorem stepStd_same_smart (st : DiffState) (k : String) :
    (populateStepStandard st k).same_smart = st.same_smart := by
  unfold populateStepStandard; split_ifs <;> rfl

theorem stepStd_changed_smart (st : DiffState) (k : String) :
    (populateStepStandard st k).changed_smart = st.changed_smart := by
  unfold populateStepStandard; split_ifs <;> rfl

theorem stepSm_resources1 (st : DiffState) (k : String) :
    (populateStepSmart st k).resources1 = st.resources1 := by
  unfold populateStepSmart; split_ifs <;> rfl

theorem stepSm_resources2 (st : DiffState) (k : String) :
    (populateStepSmart st k).resources2 = st.resources2 := by
  unfold populateStepSmart; split_ifs <;> rfl

theorem stepSm_verbosity (st : DiffState) (k : String) :
    (populateStepSmart st k).verbosity = st.verbosity := by
  unfold populateStepSmart; split_ifs <;> rfl

theorem stepSm_result (st : DiffState) (k : String) :
    (populateStepSmart st k).result = st.result := by
  unfold populateStepSmart; split_ifs <;> rfl

theorem stepSm_same (st : DiffState) (k : String) :
    (populateStepSmart st k).same = st.same := by
  unfold populateStepSmart; split_ifs <;> rfl

theorem stepSm_changed_standard (st : DiffState) (k : String) :
    (populateStepSmart st k).changed_standard = st.changed_standard := by
  unfold populateStepSmart; split_ifs <;> rfl

theorem step_resources1 (st : DiffState) (k : String) :
    (populateStep st k).resources1 = st.resources1 := by
  unfold populateStep; rw [stepSm_resources1, stepStd_resources1]

theorem step_resources2 (st : DiffState) (k : String) :
    (populateStep st k).resources2 = st.resources2 := by
  unfold populateStep; rw [stepSm_resources2, stepStd_resources2]

theorem step_verbosity (st : DiffState) (k : String) :
    (populateStep st k).verbosity = st.verbosity := by
  unfold populateStep; rw [stepSm_verbosity, stepStd_verbosity]

theorem include_same_stepStd (st : DiffState) (k : String) :
    include_same (populateStepStandard st k) = include_same st := by
  unfold include_same is_verbose
  rw [stepStd_verbosity]

theorem include_same_step (st : DiffState) (k : String) :
    include_same (populateStep st k) = include_same st := by
  unfold include_same is_verbose
  rw [step_verbosity]

theorem stepStd_changed_standard_mono (st : DiffState) (k : String) {k' : String}
    (h : k' ∈ st.changed_standard.map Prod.fst) :
    k' ∈ (populateStepStandard st k).changed_standard.map Prod.fst := by
  unfold populateStepStandard
  split_ifs
  · exact keys_insertA_mono _ _ _ h
  · exact h
  · exact h

theorem stepStd_same_mono (st : DiffState) (k : String) {k' : String}
    (h : k' ∈ st.same.map Prod.fst) :
    k' ∈ (populateStepStandard st k).same.map Prod.fst := by
  unfold populateStepStandard
  split_ifs
  · exact h
  · exact keys_insertA_mono _ _ _ h
  · exact h

theorem stepSm_changed_smart_mono (st : DiffState) (k : String) {k' : String}
    (h : k' ∈ st.changed_smart.map Prod.fst) :
    k' ∈ (populateStepSmart st k).changed_smart.map Prod.fst := by
  unfold populateStepSmart
  split_ifs
  · exact keys_insertA_mono _ _ _ h
  · exact h
  · exact h

theorem stepSm_same_smart_mono (st : DiffState) (k : String) {k' : String}
    (h : k' ∈ st.same_smart.map Prod.fst) :
    k' ∈ (populateStepSmart st k).same_smart.map Prod.fst := by
  unfold populateStepSmart
  split_ifs
  · exact h
  · exact keys_insertA_mono _ _ _ h
  · exact h

theorem step_changed_standard_mono (st : DiffState) (k : String) {k' : String}
    (h : k' ∈ st.changed_standard.map Prod.fst) :
    k' ∈ (populateStep st k).changed_standard.map Prod.fst := by
  unfold populateStep
  rw [stepSm_changed_standard]
  exact stepStd_changed_standard_mono st k h

theorem step_same_mono (st : DiffState) (k : String) {k' : String}
    (h : k' ∈ st.same.map Prod.fst) :
    k' ∈ (populateStep st k).same.map Prod.fst := by
  unfold populateStep
  rw [stepSm_same]
  exact stepStd_same_mono st k h

theorem step_changed_smart_mono (st : DiffState) (k : String) {k' : String}
    (h : k' ∈ st.changed_smart.map Prod.fst) :
    k' ∈ (populateStep st k).changed_smart.map Prod.fst := by
  unfold populateStep
  apply stepSm_changed_smart_mono
  rw [stepStd_changed_smart]
  exact h

theorem step_same_smart_mono (st : DiffState) (k : String) {k' : String}
    (h : k' ∈ st.same_smart.map Prod.fst) :
    k' ∈ (populateStep st k).same_smart.map Prod.fst := by
  unfold populateStep
  apply stepSm_same_smart_mono
  rw [stepStd_same_smart]
  exact h

theorem step_mem_changed_standard (st : DiffState) (k : String)
    (hc : condStd st.resources1 st.resources2 k) :
    k ∈ (populateStep st k).changed_standard.map Prod.fst := by
  unfold populateStep
  rw [stepSm_changed_standard]
  unfold populateStepStandard
  rw [if_pos hc]
  exact self_mem_keys_insertA _ _ _

theorem step_mem_same (st : DiffState) (k : String)
    (hc : ¬condStd st.resources1 st.resources2 k) (hi : include_same st = true) :
    k ∈ (populateStep st k).same.map Prod.fst := by
  unfold populateStep
  rw [stepSm_same]
  unfold populateStepStandard
  rw [if_neg hc, if_pos hi]
  exact self_mem_keys_insertA _ _ _

theorem step_mem_changed_smart (st : DiffState) (k : String)
    (hc : condSmart st.resources1 st.resources2 k) :
    k ∈ (populateStep st k).changed_smart.map Prod.fst := by
  unfold populateStep
  unfold populateStepSmart
  rw [if_pos (by rw [stepStd_resources1, stepStd_resources2]; exact hc)]
  exact self_mem_keys_insertA _ _ _

theorem step_mem_same_smart (st : DiffState) (k : String)
    (hc : ¬condSmart st.resources1 st.resources2 k) (hi : include_same st = true) :
    k ∈ (populateStep st k).same_smart.map Prod.fst := by
  unfold populateStep
  unfold populateStepSmart
  rw [if_neg (by rw [stepStd_resources1, stepStd_resources2]; exact hc),
    if_pos (by rw [include_same_stepStd]; exact hi)]
  exact self_mem_keys_insertA _ _ _

theorem goodAcc_stepStd (st : DiffState) (k : String) (h : goodAcc st) :
    goodAcc (populateStepStandard st k) := by
  obtain ⟨h1, h2, h3, h4⟩ := h
  unfold populateStepStandard
  split_ifs with hc hi
  · refine ⟨h1, h2, h3, ?_⟩
    intro p hp
    rcases mem_insertA _ _ _ hp with hp' | hp'
    · exact h4 p hp'
    · rw [hp']
  · refine ⟨?_, h2, h3, h4⟩
    intro p hp
    rcases mem_insertA _ _ _ hp with hp' | hp'
    · exact h1 p hp'
    · rw [hp']
  · exact ⟨h1, h2, h3, h4⟩

theorem goodAcc_stepSm (st : DiffState) (k : String) (h : goodAcc st) :
    goodAcc (populateStepSmart st k) := by
  obtain ⟨h1, h2, h3, h4⟩ := h
  unfold populateStepSmart
  split_ifs with hc hi
  · refine ⟨h1, h2, ?_, h4⟩
    intro p hp
    rcases mem_insertA _ _ _ hp with hp' | hp'
    · exact h3 p hp'
    · rw [hp']
  · refine ⟨h1, ?_, h3, h4⟩
    intro p hp
    rcases mem_insertA _ _ _ hp with hp' | hp'
    · exact h2 p hp'
    · rw [hp']
  · exact ⟨h1, h2, h3, h4⟩

theorem goodAcc_step (st : DiffState) (k : String) (h : goodAcc st) :
    goodAcc (populateStep st k) :=
  goodAcc_stepSm _ _ (goodAcc_stepStd _ _ h)

theorem goodAcc_fold (l : List String) : ∀ st : DiffState, goodAcc st →
    goodAcc (List.foldl populateStep st l) := by
  induction l with
  | nil => intro st h; exact h
  | cons k l ih => intro st h; exact ih _ (goodAcc_step st k h)

theorem fold_resources1 (l : List String) : ∀ st : DiffState,
    (List.foldl populateStep st l).resources1 = st.resources1 := by
  induction l with
  | nil => intro st; rfl
  | cons k l ih => intro st; rw [List.foldl_cons, ih, step_resources1]

theorem fold_resources2 (l : List String) : ∀ st : DiffState,
    (List.foldl populateStep st l).resources2 = st.resources2 := by
  induction l with
  | nil => intro st; rfl
  | cons k l ih => intro st; rw [List.foldl_cons, ih, step_resources2]

theorem fold_verbosity (l : List String) : ∀ st : DiffState,
    (List.foldl populateStep st l).verbosity = st.verbosity := by
  induction l with
  | nil => intro st; rfl
  | cons k l ih => intro st; rw [List.foldl_cons, ih, step_verbosity]

theorem fold_changed_standard_mono (l : List String) : ∀ (st : DiffState) {k' : String},
    k' ∈ st.changed_standard.map Prod.fst →
    k' ∈ (List.foldl populateStep st l).changed_standard.map Prod.fst := by
  induction l with
  | nil => intro st k' h; exact h
  | cons k l ih => intro st k' h; exact ih _ (step_changed_standard_mono st k h)

theorem fold_same_mono (l : List String) : ∀ (st : DiffState) {k' : String},
    k' ∈ st.same.map Prod.fst →
    k' ∈ (List.foldl populateStep st l).same.map Prod.fst := by
  induction l with
  | nil => intro st k' h; exact h
  | cons k l ih => intro st k' h; exact ih _ (step_same_mono st k h)

theorem fold_changed_smart_mono (l : List String) : ∀ (st : DiffState) {k' : String},
    k' ∈ st.changed_smart.map Prod.fst →
    k' ∈ (List.foldl populateStep st l).changed_smart.map Prod.fst := by
  induction l with
  | nil => intro st k' h; exact h
  | cons k l ih => intro st k' h; exact ih _ (step_changed_smart_mono st k h)

theorem fold_same_smart_mono (l : List String) : ∀ (st : DiffState) {k' : String},
    k' ∈ st.same_smart.map Prod.fst →
    k' ∈ (List.foldl populateStep st l).same_smart.map Prod.fst := by
  induction l with
  | nil => intro st k' h; exact h
  | cons k l ih => intro st k' h; exact ih _ (step_same_smart_mono st k h)

theorem fold_mem_changed_standard (l : List String) : ∀ (st : DiffState) (k : String),
    k ∈ l → condStd st.resources1 st.resources2 k →
    k ∈ (List.foldl populateStep st l).changed_standard.map Prod.fst := by
  induction l with
  | nil => intro st k h; cases h
  | cons k₀ l ih =>
    intro st k hk hc
    rcases List.mem_cons.1 hk with rfl | hk'
    · exact fold_changed_standard_mono l _ (step_mem_changed_standard st k hc)
    · exact ih (populateStep st k₀) k hk'
        (by rw [step_resources1, step_resources2]; exact hc)

theorem fold_mem_same (l : List String) : ∀ (st : DiffState) (k : String),
    k ∈ l → ¬condStd st.resources1 st.resources2 k → include_same st = true →
    k ∈ (List.foldl populateStep st l).same.map Prod.fst := by
  induction l with
  | nil => intro st k h; cases h
  | cons k₀ l ih =>
    intro st k hk hc hi
    rcases List.mem_cons.1 hk with rfl | hk'
    · exact fold_same_mono l _ (step_mem_same st k hc hi)
    · exact ih (populateStep st k₀) k hk'
        (by rw [step_resources1, step_resources2]; exact hc)
        (by rw [include_same_step]; exact hi)

theorem fold_mem_changed_smart (l : List String) : ∀ (st : DiffState) (k : String),
    k ∈ l → condSmart st.resources1 st.resources2 k →
    k ∈ (List.foldl populateStep st l).changed_smart.map Prod.fst := by
  induction l with
  | nil => intro st k h; cases h
  | cons k₀ l ih =>
    intro st k hk hc
    rcases List.mem_cons.1 hk with rfl | hk'
    · exact fold_changed_smart_mono l _ (step_mem_changed_smart st k hc)
    · exact ih (populateStep st k₀) k hk'
        (by rw [step_resources1, step_resources2]; exact hc)

theorem fold_mem_same_smart (l : List String) : ∀ (st : DiffState) (k : String),
    k ∈ l → ¬condSmart st.resources1 st.resources2 k → include_same st = true →
    k ∈ (List.foldl populateStep st l).same_smart.map Prod.fst := by
  induction l with
  | nil => intro st k h; cases h
  | cons k₀ l ih =>
    intro st k hk hc hi
    rcases List.mem_cons.1 hk with rfl | hk'
    · exact fold_same_smart_mono l _ (step_mem_same_smart st k hc hi)
    · exact ih (populateStep st k₀) k hk'
        (by rw [step_resources1, step_resources2]; exact hc)
        (by rw [include_same_step]; exact hi)

theorem stepStd_noop (st : DiffState) (k : String) (hg : goodAcc st)
    (h1 : condStd st.resources1 st.resources2 k → k ∈ st.changed_standard.map Prod.fst)
    (h2 : ¬condStd st.resources1 st.resources2 k → include_same st = true →
      k ∈ st.same.map Prod.fst) :
    populateStepStandard st k = st := by
  unfold populateStepStandard
  split_ifs with hc hi
  · show { st with changed_standard := insertA st.changed_standard k (getRI (mapActive st.resources1) k) } = st
    rw [insertA_eq_self _ _ _ (h1 hc)
      (fun p hp hpk => by rw [hg.2.2.2 p hp, hpk])]
  · show { st with same := insertA st.same k (getRI (mapActive st.resources1) k) } = st
    rw [insertA_eq_self _ _ _ (h2 hc hi)
      (fun p hp hpk => by rw [hg.1 p hp, hpk])]
  · rfl

theorem stepSm_noop (st : DiffState) (k : String) (hg : goodAcc st)
    (h3 : condSmart st.resources1 st.resources2 k → k ∈ st.changed_smart.map Prod.fst)
    (h4 : ¬condSmart st.resources1 st.resources2 k → include_same st = true →
      k ∈ st.same_smart.map Prod.fst) :
    populateStepSmart st k = st := by
  unfold populateStepSmart
  split_ifs with hc hi
  · show { st with changed_smart := insertA st.changed_smart k (getRI (mapActive st.resources1) k) } = st
    rw [insertA_eq_self _ _ _ (h3 hc)
      (fun p hp hpk => by rw [hg.2.2.1 p hp, hpk])]
  · show { st with same_smart := insertA st.same_smart k (getRI (mapActive st.resources1) k) } = st
    rw [insertA_eq_self _ _ _ (h4 hc hi)
      (fun p hp hpk => by rw [hg.2.1 p hp, hpk])]
  · rfl

theorem step_noop (st : DiffState) (k : String) (hg : goodAcc st)
    (h1 : condStd st.resources1 st.resources2 k → k ∈ st.changed_standard.map Prod.fst)
    (h2 : ¬condStd st.resources1 st.resources2 k → include_same st = true →
      k ∈ st.same.map Prod.fst)
    (h3 : condSmart st.resources1 st.resources2 k → k ∈ st.changed_smart.map Prod.fst)
    (h4 : ¬condSmart st.resources1 st.resources2 k → include_same st = true →
      k ∈ st.same_smart.map Prod.fst) :
    populateStep st k = st := by
  unfold populateStep
  rw [stepStd_noop st k hg h1 h2]
  exact stepSm_noop st k hg h3 h4

theorem fold_idem (l : List String) : ∀ st : DiffState, goodAcc st →
    (∀ k ∈ l,
      (condStd st.resources1 st.resources2 k → k ∈ st.changed_standard.map Prod.fst)
      ∧ (¬condStd st.resources1 st.resources2 k → include_same st = true →
          k ∈ st.same.map Prod.fst)
      ∧ (condSmart st.resources1 st.resources2 k → k ∈ st.changed_smart.map Prod.fst)
      ∧ (¬condSmart st.resources1 st.resources2 k → include_same st = true →
          k ∈ st.same_smart.map Prod.fst)) →
    List.foldl populateStep st l = st := by
  induction l with
  | nil => intro st _ _; rfl
  | cons k₀ l ih =>
    intro st hg H
    have h0 := H k₀ (List.mem_cons_self _ _)
    have hstep : populateStep st k₀ = st := step_noop st k₀ hg h0.1 h0.2.1 h0.2.2.1 h0.2.2.2
    rw [List.foldl_cons, hstep]
    exact ih st hg (fun k hk => H k (List.mem_cons_of_mem _ hk))

theorem populate_resources1 (st : DiffState) :
    (populate_diff_from_common st).resources1 = st.resources1 := by
  unfold populate_diff_from_common
  exact fold_resources1 _ _

theorem populate_resources2 (st : DiffState) :
    (populate_diff_from_common st).resources2 = st.resources2 := by
  unfold populate_diff_from_common
  exact fold_resources2 _ _

theorem populate_verbosity (st : DiffState) :
    (populate_diff_from_common st).verbosity = st.verbosity := by
  unfold populate_diff_from_common
  exact fold_verbosity _ _

/-- A second `populate_diff_from_common` pass over an already-populated
state `st'` (same inputs and verbosity as `st`, accumulator dicts as left
by the first pass, any cached result) changes nothing: every common key is
already present in the dict its conditions select, bound to the same
info. -/
theorem populate_diff_idem_after (st st' : DiffState) (hg : goodAcc st)
    (h1 : st'.resources1 = st.resources1) (h2 : st'.resources2 = st.resources2)
    (hv : st'.verbosity = st.verbosity)
    (hsame : st'.same = (populate_diff_from_common st).same)
    (hsmsm : st'.same_smart = (populate_diff_from_common st).same_smart)
    (hcsm : st'.changed_smart = (populate_diff_from_common st).changed_smart)
    (hcst : st'.changed_standard = (populate_diff_from_common st).changed_standard) :
    populate_diff_from_common st' = st' := by
  have ez1 : (populate_diff_from_common st).resources1 = st.resources1 := populate_resources1 st
  have ev : include_same st' = include_same st := by
    unfold include_same is_verbose
    rw [hv]
  have hgz : goodAcc (populate_diff_from_common st) := by
    unfold populate_diff_from_common
    exact goodAcc_fold _ st hg
  have hg' : goodAcc st' := by
    refine ⟨?_, ?_, ?_, ?_⟩
    · intro p hp
      rw [hsame] at hp
      rw [h1, ← ez1]
      exact hgz.1 p hp
    · intro p hp
      rw [hsmsm] at hp
      rw [h1, ← ez1]
      exact hgz.2.1 p hp
    · intro p hp
      rw [hcsm] at hp
      rw [h1, ← ez1]
      exact hgz.2.2.1 p hp
    · intro p hp
      rw [hcst] at hp
      rw [h1, ← ez1]
      exact hgz.2.2.2 p hp
  unfold populate_diff_from_common
  apply fold_idem
  · exact hg'
  · intro k hk
    rw [h1, h2] at hk
    have efold : ∀ z : DiffState, populate_diff_from_common z
        = List.foldl populateStep z (commonKeys z.resources1 z.resources2) := fun z => rfl
    refine ⟨?_, ?_, ?_, ?_⟩
    · intro hc
      rw [h1, h2] at hc
      rw [hcst, efold]
      exact fold_mem_changed_standard _ st k hk hc
    · intro hc hi
      rw [h1, h2] at hc
      rw [ev] at hi
      rw [hsame, efold]
      exact fold_mem_same _ st k hk hc hi
    · intro hc
      rw [h1, h2] at hc
      rw [hcsm, efold]
      exact fold_mem_changed_smart _ st k hk hc
    · intro hc hi
      rw [h1, h2] at hc
      rw [ev] at hi
      rw [hsmsm, efold]
      exact fold_mem_same_smart _ st k hk hc hi

end ChecksumDiff

/-- C8: a freshly constructed differ computes its result once; a second
`process()` call (no refresh) returns the cached, non-empty result mapping
with the state untouched (the cached branch), and `process(refresh=True)`
clears the cached result and recomputes it — yielding, for unchanged
inputs, the same result and the same state. -/
theorem diff_process_caching (rs1 rs2 : List Resource) (verbosity : Nat) :
    ChecksumDiff.process (ChecksumDiff.process (ChecksumDiff.init rs1 rs2 verbosity) false).2 false
      = ChecksumDiff.process (ChecksumDiff.init rs1 rs2 verbosity) false
    ∧ ChecksumDiff.process (ChecksumDiff.process (ChecksumDiff.init rs1 rs2 verbosity) false).2 true
      = ChecksumDiff.process (ChecksumDiff.init rs1 rs2 verbosity) false
    ∧ (ChecksumDiff.process (ChecksumDiff.init rs1 rs2 verbosity) false).2.result
      = (ChecksumDiff.process (ChecksumDiff.init rs1 rs2 verbosity) false).1
    ∧ (ChecksumDiff.process (ChecksumDiff.init rs1 rs2 verbosity) false).1 ≠ [] := by
  set S1 : ChecksumDiff.DiffState :=
    ChecksumDiff.prepare
      (ChecksumDiff.populate_diff_from_common (ChecksumDiff.init rs1 rs2 verbosity)) with hS1
  have hpf : ChecksumDiff.process (ChecksumDiff.init rs1 rs2 verbosity) false
      = (S1.result, S1) := rfl
  have hne : S1.result.isEmpty = false := rfl
  refine ⟨?_, ?_, ?_, ?_⟩
  · rw [hpf]
    show ChecksumDiff.process S1 false = (S1.result, S1)
    unfold ChecksumDiff.process
    simp [hne]
  · rw [hpf]
    show ChecksumDiff.process S1 true = (S1.result, S1)
    have hg0 : ChecksumDiff.goodAcc (ChecksumDiff.init rs1 rs2 verbosity) :=
      ⟨fun p hp => absurd hp (List.not_mem_nil p), fun p hp => absurd hp (List.not_mem_nil p),
       fun p hp => absurd hp (List.not_mem_nil p), fun p hp => absurd hp (List.not_mem_nil p)⟩
    have hidem : ChecksumDiff.populate_diff_from_common {S1 with result := []}
        = {S1 with result := []} :=
      ChecksumDiff.populate_diff_idem_after (ChecksumDiff.init rs1 rs2 verbosity)
        ({S1 with result := []}) hg0
        (ChecksumDiff.populate_resources1 _) (ChecksumDiff.populate_resources2 _)
        (ChecksumDiff.populate_verbosity _) rfl rfl rfl rfl
    calc ChecksumDiff.process S1 true
        = ((ChecksumDiff.prepare
              (ChecksumDiff.populate_diff_from_common ({S1 with result := []}))).result,
           ChecksumDiff.prepare
             (ChecksumDiff.populate_diff_from_common ({S1 with result := []}))) := rfl
      _ = ((ChecksumDiff.prepare ({S1 with result := []})).result,
           ChecksumDiff.prepare ({S1 with result := []})) := by rw [hidem]
      _ = (S1.result, S1) := rfl
  · rw [hpf]
  · rw [hpf]
    intro h
    have h2 : S1.result = [] := h
    rw [h2] at hne
    simp at hne
